import Mathlib

/-!
Verification of fedoicmsg signing_service.py.

Shallow embedding of the trust-chain assembly and signing dispatch logic
of the repository file src/fedoicmsg/signing_service.py.

Python dictionaries are embedded as association lists in insertion order
(Python dicts keep insertion order and hold each key at most once).
Exceptions are embedded as values of the PyErr type returned through
Except.  Calls to the signing backend are recorded explicitly, as the
list of documents the backend was invoked on, so that theorems can speak
about how many times the backend was called and on what.
-/

namespace FedOidc

/-- A Python dict embedded as an association list in insertion order. -/
abbrev AList (α : Type) : Type := List (String × α)

/-- Python d[key] lookup, as an Option: first entry whose key matches. -/
def alGet {α : Type} : AList α → String → Option α
  | [], _ => none
  | (k, v) :: rest, key => if k = key then some v else alGet rest key

/-- Python d[key] = v: replace the value in place if the key is present,
append the pair at the end otherwise (insertion-order semantics). -/
def alSet {α : Type} : AList α → String → α → AList α
  | [], key, v => [(key, v)]
  | (k, w) :: rest, key, v =>
    if k = key then (key, v) :: rest else (k, w) :: alSet rest key v

/-- Python del d[key]: drop the entry holding the key. -/
def alDel {α : Type} : AList α → String → AList α
  | [], _ => []
  | (k, w) :: rest, key => if k = key then rest else (k, w) :: alDel rest key

/-- Python d.update(e): write every entry of e into d, left to right. -/
def alUpdate {α : Type} (d e : AList α) : AList α :=
  e.foldl (fun acc p => alSet acc p.1 p.2) d

/-- A JSON-compatible claim value as the claims need it: either a plain
string, or a nested dict mapping federation-operator ids to strings
(the shape of the reserved claims metadata_statements and
metadata_statement_uris). -/
inductive Val : Type
  | str (s : String)
  | dict (m : AList String)
deriving DecidableEq, Repr

/-- A metadata document: claim name to claim value, in insertion order. -/
abbrev Doc : Type := AList Val

/-- The Python exceptions the embedded code can raise. -/
inductive PyErr : Type
  | keyError (k : String)
  | valueError (msg : String)
  | attributeError
  | assertionError
  | typeError
  | signingServiceError (msg : String)
  | jwsError (msg : String)
deriving DecidableEq, Repr

instance {ε α : Type} [DecidableEq ε] [DecidableEq α] : DecidableEq (Except ε α) := fun x y =>
  match x, y with
  | .ok a, .ok b =>
    if h : a = b then .isTrue (by rw [h]) else .isFalse (by intro hc; cases hc; exact h rfl)
  | .error a, .error b =>
    if h : a = b then .isTrue (by rw [h]) else .isFalse (by intro hc; cases hc; exact h rfl)
  | .ok _, .error _ => .isFalse (by intro hc; cases hc)
  | .error _, .ok _ => .isFalse (by intro hc; cases hc)

/-! ## InternalSigningService (the Local backend) -/

/-- The Local signing backend: an issuer id and the configured static
add-on claims.  The keyjar, algorithm and lifetime play no role in the
claims about the merge and are abstracted away. -/
structure InternalSigningService : Type where
  iss : String
  add_ons : Doc

/-- The payload document handed to JWT.pack by InternalSigningService.create:
a deep copy of the request which, when add_ons is nonempty, receives the
add-ons via Python dict.update. -/
def InternalSigningService.payload (svc : InternalSigningService) (req : Doc) : Doc :=
  if svc.add_ons = [] then req else alUpdate req svc.add_ons

/-! ## WebSigningServiceClient (the Remote backend) -/

/-- The decoded (base64url + JSON) payload of a compact JWS, restricted to
the one claim parse_response reads before verification. -/
structure ParsedPayload : Type where
  iss : String
deriving DecidableEq, Repr

/-- An HTTP response as parse_response consumes it. -/
structure HttpResponse : Type where
  status_code : Int
  text : String
  headers : AList String
deriving DecidableEq, Repr

/-- The remote signing client.  decodePayload embeds factory(...) followed by
json.loads of the payload part (no signature check); verifyOk embeds the
outcome of verify_compact with the key fetched for the configured issuer. -/
structure WebSigningServiceClient : Type where
  iss : String
  decodePayload : String → ParsedPayload
  verifyOk : String → Bool

/-- parse_response.  The second component records whether signature
verification (verify_compact) was invoked. -/
def WebSigningServiceClient.parse_response (c : WebSigningServiceClient)
    (r : HttpResponse) : Except PyErr (AList String) × Bool :=
  if 200 ≤ r.status_code ∧ r.status_code < 300 then
    -- assert body[iss] == self.iss, checked before any verification
    if (c.decodePayload r.text).iss = c.iss then
      if c.verifyOk r.text then
        match alGet r.headers "Location" with
        | some loc => (.ok [("sms", r.text), ("loc", loc)], true)
        | none => (.error (.keyError "Location"), true)
      else
        (.error (.jwsError "JWS signature verification error"), true)
    else
      (.error .assertionError, false)
  else
    (.error (.signingServiceError (toString r.status_code ++ ": " ++ r.text)), false)

/-! ## Signer (the TrustChainAssembler) -/

/-- The signing backend as the Signer sees it: create(req) returns a dict
whose sms entry is the signed token; the model keeps only that token via
sign.  hasIss records whether the backend object has an iss attribute
(true for both concrete backends of the file; false for e.g. a missing
backend, where attribute access raises AttributeError). -/
structure SigningBackend : Type where
  hasIss : Bool
  iss : String
  sign : Doc → String

/-- The diagnostics logger.error lines the Signer can emit. -/
inductive LogEntry : Type
  | signerItems (iss : String) (items : AList (List String))
  | noStatementsForContext (context : String)
deriving DecidableEq, Repr

/-- The value create_signed_metadata_statement returns on success: Python
None, a single signed token (single mode), or a dict of signed tokens
(fan-out mode and the root short-circuit). -/
inductive CSMSRes : Type
  | noneRes
  | strRes (sms : String)
  | dictRes (m : AList String)
deriving DecidableEq, Repr

/-- A Signer: one backend, the per-context statement store (context to
(FO-id to stored value)), and the default context. -/
structure Signer : Type where
  signing_service : SigningBackend
  metadata_statements : AList (AList String)
  def_context : String

/-- Signer.items: contexts with the list of FO ids stored under each. -/
def Signer.items (s : Signer) : AList (List String) :=
  s.metadata_statements.map (fun p => (p.1, p.2.map Prod.fst))

/-- The Python comparison of the store against the literal
dict register/discovery/response each mapping to an empty dict
(Python dict equality: same keys, equal values, order ignored;
on duplicate-free association lists this is exactly the test below). -/
def isMinSet (d : AList (AList String)) : Prop :=
  d.length = 3 ∧ alGet d "register" = some [] ∧
    alGet d "discovery" = some [] ∧ alGet d "response" = some []

instance (d : AList (AList String)) : Decidable (isMinSet d) := by
  unfold isMinSet; infer_instance

/-- Python: if not context, context = self.def_context. -/
def resolveContext (s : Signer) (context : String) : String :=
  if context = "" then s.def_context else context

/-- One call of create_signed_metadata_statement, observed fully: the
result or raised exception, the documents the backend was invoked on in
order, the state of the caller-supplied req object when the call ends,
and the logger.error diagnostics emitted. -/
structure CSMSOut : Type where
  result : Except PyErr CSMSRes
  calls : List Doc
  finalReq : Doc
  log : List LogEntry
deriving DecidableEq

/-- Python val.startswith of the literal http: the first four characters
of the string are h t t p.  (Defined on the character list so that it is
kernel-reducible; String.startsWith of core Lean uses well-founded
recursion and computes the same character-prefix test.) -/
def startsHttp (val : String) : Bool :=
  val.data.take 4 = "http".data

/-- The reserved claim under which a stored value is filed: the code
discriminates a URI reference from an inline statement by the literal
http prefix test on the stored string. -/
def attrFor (val : String) : String :=
  if startsHttp val then "metadata_statement_uris" else "metadata_statements"

/-- The single-mode merge loop of create_signed_metadata_statement: for
each FO id, look its value up in the per-context store (skip on miss) and
write it under metadata_statement_uris or metadata_statements in req,
creating the nested dict when absent.  Returns the document state reached
together with the exception, if any (item assignment into a non-dict
claim value is a TypeError). -/
def mergeFold (cms : AList String) : List String → Doc → Doc × Option PyErr
  | [], r => (r, none)
  | f :: rest, r =>
    match alGet cms f with
    | none => mergeFold cms rest r
    | some val =>
      match alGet r (attrFor val) with
      | none => mergeFold cms rest (alSet r (attrFor val) (.dict [(f, val)]))
      | some (.dict m) => mergeFold cms rest (alSet r (attrFor val) (.dict (alSet m f val)))
      | some (.str _) => (r, some .typeError)

/-- The fan-out loop of create_signed_metadata_statement: for each FO id
with a store entry, overwrite the reserved claim with the single-key dict
for that FO, invoke the backend on the document, record the token under
the FO id, and delete the reserved claim again.  Returns the final
document state, the accumulated result dict and the backend call list. -/
def fanoutFold (sign : Doc → String) (cms : AList String) :
    List String → Doc → AList String → List Doc → Doc × AList String × List Doc
  | [], r, acc, calls => (r, acc, calls)
  | f :: rest, r, acc, calls =>
    match alGet cms f with
    | none => fanoutFold sign cms rest r acc calls
    | some val =>
      let r1 := alSet r (attrFor val) (.dict [(f, val)])
      let sms := sign r1
      fanoutFold sign cms rest (alDel r1 (attrFor val)) (alSet acc f sms) (calls ++ [r1])

/-- Signer.create_signed_metadata_statement, translated branch by branch
from the source. -/
def Signer.create_signed_metadata_statement (s : Signer) (req : Doc)
    (context : String) (fos : Option (List String)) (single : Bool) : CSMSOut :=
  let ctx := resolveContext s context
  if s.metadata_statements = [] then
    -- the store dict is falsy: the function body is skipped, returns None
    ⟨.ok .noneRes, [], req, []⟩
  else
    match alGet s.metadata_statements ctx with
    | none =>
      -- KeyError branch
      if isMinSet s.metadata_statements then
        -- no superior, so an FO: sign req as it is
        if s.signing_service.hasIss then
          ⟨.ok (.dictRes [(s.signing_service.iss, s.signing_service.sign req)]),
           [req], req, []⟩
        else
          ⟨.error .attributeError, [req], req, []⟩
      else
        if s.signing_service.hasIss then
          -- both logger.error lines run, then the KeyError is re-raised
          ⟨.error (.keyError ctx), [], req,
           [.signerItems s.signing_service.iss s.items,
            .noStatementsForContext ctx]⟩
        else
          -- formatting the first log line raises AttributeError
          ⟨.error (.signingServiceError "This signer can not sign for that context"),
           [], req, []⟩
    | some cms =>
      if cms = [] then
        -- empty per-context store: no superior, so an FO
        if s.signing_service.hasIss then
          ⟨.ok (.dictRes [(s.signing_service.iss, s.signing_service.sign req)]),
           [req], req, []⟩
        else
          ⟨.error .attributeError, [req], req, []⟩
      else
        let fosR := fos.getD (cms.map Prod.fst)
        if single then
          match mergeFold cms fosR req with
          | (d, some e) => ⟨.error e, [], d, []⟩
          | (d, none) =>
            let sms := s.signing_service.sign d
            if fosR ≠ [] ∧ sms = "" then
              ⟨.error (.keyError "No metadata statements matched"), [d], d, []⟩
            else
              ⟨.ok (.strRes sms), [d], d, []⟩
        else
          match fanoutFold s.signing_service.sign cms fosR req [] [] with
          | (r1, acc, calls) =>
            if fosR ≠ [] ∧ acc = [] then
              ⟨.error (.keyError "No metadata statements matched"), calls, r1, []⟩
            else
              ⟨.ok (.dictRes acc), calls, r1, []⟩

/-- One call of gather_metadata_statements, observed fully: the result or
raised exception, the number of backend invocations, and the diagnostics. -/
structure GatherOut : Type where
  result : Except PyErr Doc
  backendCalls : Nat
  log : List LogEntry
deriving DecidableEq

/-- Signer.gather_metadata_statements, translated branch by branch from
the source.  The merge loop is the same per-FO classification as in
single mode, run against a fresh empty document; the backend is never
consulted anywhere in the body. -/
def Signer.gather_metadata_statements (s : Signer) (context : String)
    (fos : Option (List String)) : GatherOut :=
  let ctx := resolveContext s context
  if s.metadata_statements = [] then
    ⟨.ok [], 0, []⟩
  else
    match alGet s.metadata_statements ctx with
    | none =>
      if isMinSet s.metadata_statements then
        -- no superior, so an FO: nothing to add
        ⟨.ok [], 0, []⟩
      else
        ⟨.error (.valueError ("Wrong context \"" ++ ctx ++ "\"")), 0,
         [.noStatementsForContext ctx]⟩
    | some cms =>
      if cms = [] then
        ⟨.ok [], 0, []⟩
      else
        let fosR := fos.getD (cms.map Prod.fst)
        match mergeFold cms fosR [] with
        | (_, some e) => ⟨.error e, 0, []⟩
        | (d, none) => ⟨.ok d, 0, []⟩

/-! ## Signer construction -/

/-- Modelled from the spec: the fixed closed set of operational contexts
(registration, discovery, response); the CONTEXTS constant lives in the
package init file, which is not part of the sources at hand. -/
def CONTEXTS : List String := ["register", "discovery", "response"]

/-- The ms_dir-is-a-dict branch of Signer.init: every key must be one of
the recognized contexts, otherwise ValueError; each context receives the
contents of its FileSystem store (the store contents are taken directly,
the FileSystem adapter being an external collaborator). -/
def buildStores : AList (AList String) → Except PyErr (AList (AList String))
  | [] => .ok []
  | (k, contents) :: rest =>
    if k ∈ CONTEXTS then
      (buildStores rest).map (fun t => (k, contents) :: t)
    else
      .error (.valueError (k ++ " not expected operation"))

/-- Signer construction for the dictionary form of ms_dir (an empty dict
is a dict, so it takes this branch and yields an empty overall store). -/
def Signer.initFromDict (svc : SigningBackend) (ms_dir : AList (AList String))
    (def_context : String) : Except PyErr Signer :=
  (buildStores ms_dir).map (fun store => ⟨svc, store, def_context⟩)

/-! ## Association-list lemmas -/

theorem alGet_alSet_self {α : Type} (d : AList α) (k : String) (v : α) :
    alGet (alSet d k v) k = some v := by
  induction d with
  | nil => simp [alSet, alGet]
  | cons p rest ih =>
    obtain ⟨k1, v1⟩ := p
    by_cases h : k1 = k
    · simp [alSet, h, alGet]
    · simp [alSet, h, alGet, ih]

theorem alGet_alSet_ne {α : Type} (d : AList α) (k : String) (v : α) (q : String)
    (h : q ≠ k) : alGet (alSet d k v) q = alGet d q := by
  have hk : k ≠ q := fun hc => h hc.symm
  induction d with
  | nil => simp [alSet, alGet, hk]
  | cons p rest ih =>
    obtain ⟨k1, v1⟩ := p
    by_cases h1 : k1 = k
    · subst h1
      simp [alSet, alGet, hk]
    · simp [alSet, alGet, h1, ih]

theorem alGet_isSome_alSet {α : Type} (d : AList α) (k : String) (v : α) (q : String) :
    (alGet (alSet d k v) q).isSome = true ↔ (q = k ∨ (alGet d q).isSome = true) := by
  by_cases h : q = k
  · subst h; simp [alGet_alSet_self]
  · simp [alGet_alSet_ne d k v q h, h]

theorem alSet_eq_append {α : Type} (d : AList α) (k : String) (v : α)
    (h : alGet d k = none) : alSet d k v = d ++ [(k, v)] := by
  induction d with
  | nil => simp [alSet]
  | cons p rest ih =>
    obtain ⟨k1, v1⟩ := p
    by_cases h1 : k1 = k
    · simp [alGet, h1] at h
    · simp [alGet, h1] at h
      simp [alSet, h1, ih h]

theorem alDel_append {α : Type} (d : AList α) (k : String) (v : α)
    (h : alGet d k = none) : alDel (d ++ [(k, v)]) k = d := by
  induction d with
  | nil => simp [alDel]
  | cons p rest ih =>
    obtain ⟨k1, v1⟩ := p
    by_cases h1 : k1 = k
    · simp [alGet, h1] at h
    · simp [alGet, h1] at h
      simp [alDel, h1, ih h]

theorem alGet_mem {α : Type} (d : AList α) (k : String) (v : α)
    (h : alGet d k = some v) : (k, v) ∈ d := by
  induction d with
  | nil => simp [alGet] at h
  | cons p rest ih =>
    obtain ⟨k1, v1⟩ := p
    by_cases h1 : k1 = k
    · subst h1
      simp [alGet] at h
      simp [h]
    · simp [alGet, h1] at h
      simp [ih h]

theorem alSet_ne_nil {α : Type} (d : AList α) (k : String) (v : α) :
    alSet d k v ≠ [] := by
  cases d with
  | nil => simp [alSet]
  | cons p rest =>
    obtain ⟨k1, v1⟩ := p
    by_cases h : k1 = k <;> simp [alSet, h]

theorem alGet_alUpdate_notMem {α : Type} (e d : AList α) (k : String)
    (h : ∀ p ∈ e, p.1 ≠ k) : alGet (alUpdate d e) k = alGet d k := by
  induction e generalizing d with
  | nil => simp [alUpdate]
  | cons p rest ih =>
    obtain ⟨k1, v1⟩ := p
    have hne : k ≠ k1 := fun hc => (h (k1, v1) (by simp)) hc.symm
    have : alUpdate d ((k1, v1) :: rest) = alUpdate (alSet d k1 v1) rest := rfl
    rw [this, ih (alSet d k1 v1) (fun p hp => h p (by simp [hp])),
        alGet_alSet_ne d k1 v1 k hne]

theorem alGet_alUpdate_of_get {α : Type} (e : AList α) :
    ∀ (d : AList α) (k : String) (v : α),
      (e.map Prod.fst).Nodup → alGet e k = some v →
      alGet (alUpdate d e) k = some v := by
  induction e with
  | nil => intro d k v _ h; simp [alGet] at h
  | cons p rest ih =>
    intro d k v hnd h
    obtain ⟨k1, v1⟩ := p
    rw [List.map_cons, List.nodup_cons] at hnd
    have hstep : alUpdate d ((k1, v1) :: rest) = alUpdate (alSet d k1 v1) rest := rfl
    rw [hstep]
    by_cases h1 : k1 = k
    · subst h1
      have hv : v1 = v := by simpa [alGet] using h
      subst hv
      have hnot : ∀ p2 ∈ rest, p2.1 ≠ k1 := by
        intro p2 hp2 hc
        have hmem : p2.1 ∈ rest.map Prod.fst := List.mem_map_of_mem Prod.fst hp2
        rw [hc] at hmem
        exact hnd.1 hmem
      rw [alGet_alUpdate_notMem rest (alSet d k1 v1) k1 hnot]
      exact alGet_alSet_self d k1 v1
    · have h2 : alGet rest k = some v := by simpa [alGet, h1] using h
      exact ih (alSet d k1 v1) k v hnd.2 h2

/-- An entry at k in d is either absent or a nested dict value. -/
def dictOrAbsent (d : Doc) (a : String) : Prop :=
  ∀ v, alGet d a = some v → ∃ m, v = Val.dict m

/-- Document d files stored value val under FO id f inside the reserved
claim selected by the http prefix test. -/
def hasEntry (d : Doc) (f val : String) : Prop :=
  ∃ m, alGet d (attrFor val) = some (Val.dict m) ∧ alGet m f = some val

theorem alGet_none_notMem {α : Type} (d : AList α) (k : String)
    (h : alGet d k = none) : ∀ p ∈ d, p.1 ≠ k := by
  induction d with
  | nil => simp
  | cons p rest ih =>
    obtain ⟨k1, v1⟩ := p
    by_cases h1 : k1 = k
    · simp [alGet, h1] at h
    · simp [alGet, h1] at h
      intro p2 hp2
      rcases List.mem_cons.mp hp2 with h2 | h2
      · rw [h2]; exact h1
      · exact ih h p2 h2

/-! ## Fixtures used by witnesses and counterexamples -/

/-- A concrete backend: has an iss attribute and returns a fixed nonempty
token for every document. -/
def exBackend : SigningBackend :=
  ⟨true, "https://op.example.org", fun _ => "signedtoken"⟩

/-- A concrete per-context store: context register with a URI-valued FO A
and an inline-valued FO B. -/
def exStore : AList (AList String) :=
  [("register", [("A", "http://x/stmtA"), ("B", "eyJhbGciOi.sig")])]

/-- A concrete non-root Signer over exStore. -/
def exSigner : Signer := ⟨exBackend, exStore, "register"⟩

/-- A concrete root Signer: every context maps to the empty store. -/
def exRootSigner : Signer :=
  ⟨exBackend, [("register", []), ("discovery", []), ("response", [])], "register"⟩

/-- A concrete remote client whose configured issuer matches what the
response payload decodes to. -/
def exClient : WebSigningServiceClient :=
  ⟨"https://op.example.org", fun _ => ⟨"https://op.example.org"⟩, fun _ => true⟩

/-- A concrete remote client whose responses decode to a different issuer
than the configured one. -/
def exBadIssClient : WebSigningServiceClient :=
  ⟨"https://op.example.org", fun _ => ⟨"https://evil.example.org"⟩, fun _ => true⟩

/-- A successful HTTP response carrying a Location header. -/
def exOkResponse : HttpResponse :=
  ⟨200, "sometoken", [("Location", "https://signer.example.org/x")]⟩

/-- True exactly when the outcome of parse_response is a raised
SigningServiceError. -/
def raisedSigningServiceError (p : Except PyErr (AList String) × Bool) : Prop :=
  match p.1 with
  | .error (.signingServiceError _) => True
  | _ => False

instance (p : Except PyErr (AList String) × Bool) :
    Decidable (raisedSigningServiceError p) := by
  unfold raisedSigningServiceError
  rcases p with ⟨e, b⟩
  rcases e with e | r
  · rcases e <;> simp <;> infer_instance
  · simp; infer_instance

/-! ## Claim C7 -/

/-- Claim C7: for every remote-backend HTTP response whose status code lies
outside the half-open interval from 200 to 300, parse_response raises a
SigningServiceError whose message is the status code followed by the
response body, and no usable result is returned (and verification is not
attempted). -/
theorem claim_C7 (c : WebSigningServiceClient) (r : HttpResponse)
    (h : ¬ (200 ≤ r.status_code ∧ r.status_code < 300)) :
    c.parse_response r =
      (.error (.signingServiceError (toString r.status_code ++ ": " ++ r.text)),
       false) := by
  unfold WebSigningServiceClient.parse_response
  rw [if_neg h]

/-- Claim C7 witness: status 404 with body not found raises the
SigningServiceError carrying both. -/
theorem claim_C7_witness :
    WebSigningServiceClient.parse_response exClient ⟨404, "not found", []⟩ =
      (.error (.signingServiceError "404: not found"), false) := by
  rw [claim_C7 exClient ⟨404, "not found", []⟩ (by decide)]
  rfl

/-! ## Claim C1 -/

/-- Claim C1 counterexample: a 2xx response whose decoded payload issuer
differs from the configured issuer makes parse_response raise the bare
AssertionError of the assert statement, which is not a SigningServiceError,
so the claim as stated (fails with a SigningServiceError) is false; the
second conjunct confirms verification was not attempted. -/
theorem claim_C1_counterexample :
    WebSigningServiceClient.parse_response exBadIssClient exOkResponse =
      (.error .assertionError, false) ∧
    ¬ raisedSigningServiceError
        (WebSigningServiceClient.parse_response exBadIssClient exOkResponse) := by
  decide

/-- Claim C1 (amended): for every 2xx response whose decoded payload issuer
claim differs from the configured issuer, parse_response fails with the
bare AssertionError of the assert statement (not a SigningServiceError),
and signature verification is never attempted (the verify flag is false). -/
theorem claim_C1_amended (c : WebSigningServiceClient) (r : HttpResponse)
    (hst : 200 ≤ r.status_code ∧ r.status_code < 300)
    (hiss : (c.decodePayload r.text).iss ≠ c.iss) :
    c.parse_response r = (.error .assertionError, false) := by
  unfold WebSigningServiceClient.parse_response
  rw [if_pos hst, if_neg hiss]

/-- Claim C1 witness. -/
theorem claim_C1_witness :
    WebSigningServiceClient.parse_response exBadIssClient exOkResponse =
      (.error .assertionError, false) :=
  claim_C1_amended exBadIssClient exOkResponse (by decide) (by decide)

/-! ## Claim C10 -/

/-- Claim C10: a Signer whose overall statement store is the empty dict --
reachable by constructing with an empty ms_dir dict -- returns Python None
from create_signed_metadata_statement for every document, context, FO list
and mode, with no backend invocation, no exception, no mutation of the
document and no diagnostics: an outcome distinct from the root
short-circuit (which returns a one-entry dict) and from every error. -/
theorem claim_C10 (svc : SigningBackend) (dc : String) (req : Doc)
    (context : String) (fos : Option (List String)) (single : Bool) :
    Signer.initFromDict svc [] dc = .ok ⟨svc, [], dc⟩ ∧
    (Signer.mk svc [] dc).create_signed_metadata_statement req context fos single =
      ⟨.ok .noneRes, [], req, []⟩ := by
  constructor
  · rfl
  · simp [Signer.create_signed_metadata_statement]

/-! ## Claim C3 -/

/-- A Local backend configured with one add-on claim named a. -/
def exAddOnSvc : InternalSigningService :=
  ⟨"https://op.example.org", [("a", .str "addon")]⟩

/-- Claim C3 counterexample: the caller supplies claim a, the backend holds
an add-on also named a, and the signed payload carries the add-on value:
the add-on overwrote the caller-supplied claim, so add if absent is false. -/
theorem claim_C3_counterexample :
    InternalSigningService.payload exAddOnSvc [("a", .str "caller")] =
      [("a", .str "addon")] := by
  decide

/-- Claim C3 (amended): the Local backend merge is Python dict.update with
the add-ons written last, so an add-on claim always appears in the signed
payload with the add-on value, overwriting a caller-supplied claim of the
same name; claims whose name carries no add-on are passed through
unchanged. -/
theorem claim_C3_amended (svc : InternalSigningService) (req : Doc)
    (k : String) (v : Val)
    (hnd : (svc.add_ons.map Prod.fst).Nodup) :
    (alGet svc.add_ons k = some v → alGet (svc.payload req) k = some v) ∧
    (alGet svc.add_ons k = none → alGet (svc.payload req) k = alGet req k) := by
  constructor
  · intro hg
    have hne : svc.add_ons ≠ [] := by
      intro hc; rw [hc] at hg; simp [alGet] at hg
    unfold InternalSigningService.payload
    rw [if_neg hne]
    exact alGet_alUpdate_of_get svc.add_ons req k v hnd hg
  · intro hg
    unfold InternalSigningService.payload
    by_cases hc : svc.add_ons = []
    · rw [if_pos hc]
    · rw [if_neg hc]
      exact alGet_alUpdate_notMem svc.add_ons req k (alGet_none_notMem svc.add_ons k hg)

/-- Claim C3 witness: the add-on named a wins over the caller claim a while
the caller claim b is untouched. -/
theorem claim_C3_witness :
    alGet (InternalSigningService.payload exAddOnSvc
      [("a", .str "caller"), ("b", .str "keep")]) "a" = some (.str "addon") ∧
    alGet (InternalSigningService.payload exAddOnSvc
      [("a", .str "caller"), ("b", .str "keep")]) "b" =
      alGet [("a", Val.str "caller"), ("b", Val.str "keep")] "b" := by
  constructor
  · exact (claim_C3_amended exAddOnSvc _ "a" (.str "addon") (by decide)).1 (by decide)
  · exact (claim_C3_amended exAddOnSvc _ "b" (.str "addon") (by decide)).2 (by decide)

/-! ## Claim C4 -/

/-- Claim C4: for every root Signer -- one whose store holds exactly the
three recognized contexts each mapping to the empty set, or whose store
holds the resolved context with an empty set -- every call of
create_signed_metadata_statement returns exactly the one-entry dict from
the backend issuer id to the signed token of the input document, invokes
the backend exactly once and on the unmodified document, leaves the
document unmutated, and logs nothing. -/
theorem claim_C4 (s : Signer) (req : Doc) (context : String)
    (fos : Option (List String)) (single : Bool)
    (hIss : s.signing_service.hasIss = true)
    (hroot :
      (isMinSet s.metadata_statements ∧ ∀ p ∈ s.metadata_statements, p.2 = []) ∨
      alGet s.metadata_statements (resolveContext s context) = some []) :
    s.create_signed_metadata_statement req context fos single =
      ⟨.ok (.dictRes [(s.signing_service.iss, s.signing_service.sign req)]),
       [req], req, []⟩ := by
  have hne : s.metadata_statements ≠ [] := by
    rcases hroot with ⟨⟨hlen, _⟩, _⟩ | hg
    · intro hc; rw [hc] at hlen; simp at hlen
    · intro hc; rw [hc] at hg; simp [alGet] at hg
  cases halG : alGet s.metadata_statements (resolveContext s context) with
  | none =>
    have hmin : isMinSet s.metadata_statements := by
      rcases hroot with ⟨hm, _⟩ | hg
      · exact hm
      · rw [halG] at hg; cases hg
    simp [Signer.create_signed_metadata_statement, hne, halG, hmin, hIss]
  | some cms =>
    have hcms : cms = [] := by
      rcases hroot with ⟨_, hall⟩ | hg
      · exact hall _ (alGet_mem _ _ _ halG)
      · rw [halG] at hg; exact Option.some.inj hg
    subst hcms
    simp [Signer.create_signed_metadata_statement, hne, halG, hIss]

/-- Claim C4 witness: the all-empty-contexts root Signer signs the caller
document as is and wraps the token under its own issuer id. -/
theorem claim_C4_witness :
    exRootSigner.create_signed_metadata_statement
        [("foo", .str "bar")] "" none true =
      ⟨.ok (.dictRes [("https://op.example.org", "signedtoken")]),
       [[("foo", .str "bar")]], [("foo", .str "bar")], []⟩ :=
  claim_C4 exRootSigner [("foo", .str "bar")] "" none true (by decide)
    (Or.inl (by decide))

/-! ## Claim C8 -/

/-- Claim C8: for every non-root Signer whose store has no entry for the
resolved context, create_signed_metadata_statement fails with an error
naming that context (the re-raised KeyError; the ConfigurationError of the
spec taxonomy), after logging the available contexts with their FO ids and
the missing context as diagnostics, and without invoking the backend.
Stated for backends exposing an iss attribute, which both concrete
backends of the file do. -/
theorem claim_C8 (s : Signer) (req : Doc) (context : String)
    (fos : Option (List String)) (single : Bool)
    (h1 : s.metadata_statements ≠ [])
    (h2 : ¬ isMinSet s.metadata_statements)
    (h3 : alGet s.metadata_statements (resolveContext s context) = none)
    (h4 : s.signing_service.hasIss = true) :
    s.create_signed_metadata_statement req context fos single =
      ⟨.error (.keyError (resolveContext s context)), [], req,
       [.signerItems s.signing_service.iss s.items,
        .noStatementsForContext (resolveContext s context)]⟩ := by
  simp [Signer.create_signed_metadata_statement, h1, h2, h3, h4]

/-- Claim C8 witness: the non-root Signer over context register asked for
context response fails with the KeyError naming response after logging its
items. -/
theorem claim_C8_witness :
    exSigner.create_signed_metadata_statement [] "response" none true =
      ⟨.error (.keyError "response"), [], [],
       [.signerItems "https://op.example.org" [("register", ["A", "B"])],
        .noStatementsForContext "response"]⟩ :=
  claim_C8 exSigner [] "response" none true (by decide) (by decide) (by decide)
    (by decide)

/-! ## Claim C2 -/

theorem fanoutFold_allMiss (sign : Doc → String) (cms : AList String)
    (fosL : List String) :
    ∀ (r : Doc) (acc : AList String) (calls : List Doc),
      (∀ f ∈ fosL, alGet cms f = none) →
      fanoutFold sign cms fosL r acc calls = (r, acc, calls) := by
  induction fosL with
  | nil => intro r acc calls _; rfl
  | cons f rest ih =>
    intro r acc calls hmiss
    have h0 : alGet cms f = none := hmiss f (by simp)
    have hstep : fanoutFold sign cms (f :: rest) r acc calls =
        fanoutFold sign cms rest r acc calls := by
      simp [fanoutFold, h0]
    rw [hstep]
    exact ih r acc calls (fun g hg => hmiss g (by simp [hg]))

/-- Claim C2 counterexample: a non-root Signer with a non-empty store for
the context, an explicit FO list whose single id misses the store, and
single mode: no error is raised; the backend is invoked once on the
unchanged document and its token is returned.  This refutes the claim that
the no-match error fires in both aggregation modes. -/
theorem claim_C2_counterexample :
    exSigner.create_signed_metadata_statement [] "" (some ["Z"]) true =
      ⟨.ok (.strRes "signedtoken"), [[]], [], []⟩ := by
  decide

/-- Claim C2 (amended): for every non-root Signer with a non-empty store
for the resolved context, calling create_signed_metadata_statement with an
explicit non-empty FO list whose ids are all absent from the store raises
KeyError with message No metadata statements matched -- in fan-out mode
(single false) only, with no backend invocation and no mutation; in single
mode the merged-nothing document is signed and returned instead. -/
theorem claim_C2_amended (s : Signer) (req : Doc) (context : String)
    (fosL : List String) (cms : AList String)
    (hc : alGet s.metadata_statements (resolveContext s context) = some cms)
    (hcms : cms ≠ [])
    (hfos : fosL ≠ [])
    (hmiss : ∀ f ∈ fosL, alGet cms f = none) :
    s.create_signed_metadata_statement req context (some fosL) false =
      ⟨.error (.keyError "No metadata statements matched"), [], req, []⟩ := by
  have hne : s.metadata_statements ≠ [] := by
    intro h0; rw [h0] at hc; simp [alGet] at hc
  simp [Signer.create_signed_metadata_statement, hne, hc, hcms, hfos,
        fanoutFold_allMiss s.signing_service.sign cms fosL req [] [] hmiss]

/-- Claim C2 witness: fan-out mode with the all-miss list raises the
no-match KeyError. -/
theorem claim_C2_witness :
    exSigner.create_signed_metadata_statement [] "" (some ["Z"]) false =
      ⟨.error (.keyError "No metadata statements matched"), [], [], []⟩ :=
  claim_C2_amended exSigner [] "" ["Z"]
    [("A", "http://x/stmtA"), ("B", "eyJhbGciOi.sig")]
    (by decide) (by decide) (by decide) (by decide)

/-! ## Claim C5 -/

theorem dictOrAbsent_alSet_dict (r : Doc) (a b : String) (m : AList String)
    (h : dictOrAbsent r a) : dictOrAbsent (alSet r b (Val.dict m)) a := by
  intro v hv
  by_cases hab : a = b
  · subst hab
    rw [alGet_alSet_self] at hv
    exact ⟨m, (Option.some.inj hv).symm⟩
  · rw [alGet_alSet_ne r b _ a hab] at hv
    exact h v hv

/-- The single-mode merge loop, characterized: when the two reserved claims
of the incoming document are absent or dict-valued, the loop raises nothing,
keeps the reserved claims dict-valued, and its result files every requested
FO with a store hit (as well as every already filed entry) under the claim
chosen by the http prefix test. -/
theorem mergeFold_spec (cms : AList String) (fosL : List String) :
    ∀ r : Doc,
      dictOrAbsent r "metadata_statement_uris" →
      dictOrAbsent r "metadata_statements" →
      (mergeFold cms fosL r).2 = none ∧
      dictOrAbsent (mergeFold cms fosL r).1 "metadata_statement_uris" ∧
      dictOrAbsent (mergeFold cms fosL r).1 "metadata_statements" ∧
      (∀ f val, alGet cms f = some val → (f ∈ fosL ∨ hasEntry r f val) →
        hasEntry (mergeFold cms fosL r).1 f val) := by
  induction fosL with
  | nil =>
    intro r hU hS
    refine ⟨rfl, hU, hS, ?_⟩
    intro f val _ hin
    rcases hin with hin | hin
    · simp at hin
    · exact hin
  | cons f0 rest ih =>
    intro r hU hS
    cases hval : alGet cms f0 with
    | none =>
      have hstep : mergeFold cms (f0 :: rest) r = mergeFold cms rest r := by
        simp [mergeFold, hval]
      rw [hstep]
      obtain ⟨ha, hb, hcc, hd⟩ := ih r hU hS
      refine ⟨ha, hb, hcc, ?_⟩
      intro f val hg hin
      apply hd f val hg
      rcases hin with hin | hin
      · rcases List.mem_cons.mp hin with h1 | h1
        · subst h1; rw [hval] at hg; cases hg
        · exact Or.inl h1
      · exact Or.inr hin
    | some val0 =>
      have hDA : dictOrAbsent r (attrFor val0) := by
        unfold attrFor
        by_cases h : startsHttp val0
        · simpa [h] using hU
        · simpa [h] using hS
      cases hattr : alGet r (attrFor val0) with
      | none =>
        have hstep : mergeFold cms (f0 :: rest) r =
            mergeFold cms rest (alSet r (attrFor val0) (.dict [(f0, val0)])) := by
          simp [mergeFold, hval, hattr]
        rw [hstep]
        have hU2 : dictOrAbsent (alSet r (attrFor val0) (.dict [(f0, val0)]))
            "metadata_statement_uris" := dictOrAbsent_alSet_dict r _ _ _ hU
        have hS2 : dictOrAbsent (alSet r (attrFor val0) (.dict [(f0, val0)]))
            "metadata_statements" := dictOrAbsent_alSet_dict r _ _ _ hS
        obtain ⟨ha, hb, hcc, hd⟩ := ih _ hU2 hS2
        refine ⟨ha, hb, hcc, ?_⟩
        intro f val hg hin
        apply hd f val hg
        rcases hin with hin | hin
        · rcases List.mem_cons.mp hin with h1 | h1
          · subst h1
            rw [hval] at hg
            have hv : val0 = val := Option.some.inj hg
            subst hv
            exact Or.inr ⟨[(f, val0)], alGet_alSet_self r _ _, by simp [alGet]⟩
          · exact Or.inl h1
        · obtain ⟨m2, hget, hmf⟩ := hin
          by_cases hab : attrFor val = attrFor val0
          · rw [hab, hattr] at hget; cases hget
          · exact Or.inr ⟨m2, by
              rw [alGet_alSet_ne r _ _ _ hab]; exact hget, hmf⟩
      | some v =>
        obtain ⟨m, hm⟩ := hDA v hattr
        subst hm
        have hstep : mergeFold cms (f0 :: rest) r =
            mergeFold cms rest (alSet r (attrFor val0) (.dict (alSet m f0 val0))) := by
          simp [mergeFold, hval, hattr]
        rw [hstep]
        have hU2 : dictOrAbsent (alSet r (attrFor val0) (.dict (alSet m f0 val0)))
            "metadata_statement_uris" := dictOrAbsent_alSet_dict r _ _ _ hU
        have hS2 : dictOrAbsent (alSet r (attrFor val0) (.dict (alSet m f0 val0)))
            "metadata_statements" := dictOrAbsent_alSet_dict r _ _ _ hS
        obtain ⟨ha, hb, hcc, hd⟩ := ih _ hU2 hS2
        refine ⟨ha, hb, hcc, ?_⟩
        intro f val hg hin
        apply hd f val hg
        rcases hin with hin | hin
        · rcases List.mem_cons.mp hin with h1 | h1
          · subst h1
            rw [hval] at hg
            have hv : val0 = val := Option.some.inj hg
            subst hv
            exact Or.inr ⟨alSet m f val0, alGet_alSet_self r _ _,
              alGet_alSet_self m f val0⟩
          · exact Or.inl h1
        · obtain ⟨m2, hget, hmf⟩ := hin
          by_cases hab : attrFor val = attrFor val0
          · rw [hab, hattr] at hget
            have hm2 : m = m2 := Val.dict.inj (Option.some.inj hget)
            subst hm2
            by_cases hff : f = f0
            · subst hff
              rw [hval] at hg
              have hv : val0 = val := Option.some.inj hg
              subst hv
              refine Or.inr ⟨alSet m f val0, ?_, alGet_alSet_self m f val0⟩
              rw [hab]
              exact alGet_alSet_self r _ _
            · refine Or.inr ⟨alSet m f0 val0, ?_, ?_⟩
              · rw [hab]
                exact alGet_alSet_self r _ _
              · rw [alGet_alSet_ne m f0 val0 f hff]
                exact hmf
          · exact Or.inr ⟨m2, by
              rw [alGet_alSet_ne r _ _ _ hab]; exact hget, hmf⟩

/-- Claim C5: for every non-root Signer with a non-empty store for the
resolved context, single mode merges each present FO entry into the
document (under metadata_statement_uris for http-prefixed stored values,
under metadata_statements otherwise), skips absent FOs without error, then
invokes the backend exactly once, on the fully merged document, and
returns its signed token directly (not wrapped in a per-FO dict).  Stated
for documents whose reserved claims, when present, are dict-valued, and
for backends producing nonempty tokens. -/
theorem claim_C5 (s : Signer) (req : Doc) (context : String)
    (fos : Option (List String)) (cms : AList String)
    (hc : alGet s.metadata_statements (resolveContext s context) = some cms)
    (hcms : cms ≠ [])
    (hU : dictOrAbsent req "metadata_statement_uris")
    (hS : dictOrAbsent req "metadata_statements")
    (hsgn : ∀ d, s.signing_service.sign d ≠ "") :
    ∃ d : Doc,
      s.create_signed_metadata_statement req context fos true =
        ⟨.ok (.strRes (s.signing_service.sign d)), [d], d, []⟩ ∧
      ∀ f val, f ∈ fos.getD (cms.map Prod.fst) → alGet cms f = some val →
        hasEntry d f val := by
  have hne : s.metadata_statements ≠ [] := by
    intro h0; rw [h0] at hc; simp [alGet] at hc
  obtain ⟨hmf, _, _, hent⟩ :=
    mergeFold_spec cms (fos.getD (cms.map Prod.fst)) req hU hS
  rcases hE : mergeFold cms (fos.getD (cms.map Prod.fst)) req with ⟨d, e⟩
  rw [hE] at hmf hent
  simp only at hmf
  subst hmf
  refine ⟨d, ?_, ?_⟩
  · simp [Signer.create_signed_metadata_statement, hne, hc, hcms, hE, hsgn d]
  · intro f val hf hg
    simpa using hent f val hg (Or.inl hf)

/-- Claim C5 witness: the non-root Signer over FO A (URI valued) and FO B
(inline valued) files A under metadata_statement_uris and B under
metadata_statements in the one signed document. -/
theorem claim_C5_witness :
    ∃ d : Doc,
      exSigner.create_signed_metadata_statement [] "" none true =
        ⟨.ok (.strRes (exSigner.signing_service.sign d)), [d], d, []⟩ ∧
      ∀ f val,
        f ∈ ([("A", "http://x/stmtA"), ("B", "eyJhbGciOi.sig")] :
              AList String).map Prod.fst →
        alGet [("A", "http://x/stmtA"), ("B", "eyJhbGciOi.sig")] f = some val →
        hasEntry d f val :=
  claim_C5 exSigner [] "" none [("A", "http://x/stmtA"), ("B", "eyJhbGciOi.sig")]
    (by decide) (by decide)
    (fun v hv => by simp [alGet] at hv)
    (fun v hv => by simp [alGet] at hv)
    (fun d => by show ("signedtoken" : String) ≠ ""; decide)

/-! ## Claim C6 -/

/-- The FO ids of the working list that have a store entry, in list order,
paired with their stored values. -/
def hitList (cms : AList String) (fosL : List String) : List (String × String) :=
  fosL.filterMap (fun f => (alGet cms f).map (fun v => (f, v)))

/-- The fan-out loop, characterized for documents that carry neither
reserved claim: the document comes back exactly as it went in, each backend
call sees the document extended with only that FO single-key entry, and the
accumulated dict collects one token per hit. -/
theorem fanoutFold_spec (sign : Doc → String) (cms : AList String)
    (fosL : List String) :
    ∀ (r : Doc) (acc : AList String) (calls : List Doc),
      alGet r "metadata_statement_uris" = none →
      alGet r "metadata_statements" = none →
      fanoutFold sign cms fosL r acc calls =
        (r,
         (hitList cms fosL).foldl
           (fun a p => alSet a p.1 (sign (r ++ [(attrFor p.2, Val.dict [(p.1, p.2)])])))
           acc,
         calls ++ (hitList cms fosL).map
           (fun p => r ++ [(attrFor p.2, Val.dict [(p.1, p.2)])])) := by
  induction fosL with
  | nil =>
    intro r acc calls _ _
    simp [fanoutFold, hitList]
  | cons f0 rest ih =>
    intro r acc calls hU hS
    cases hval : alGet cms f0 with
    | none =>
      have hstep : fanoutFold sign cms (f0 :: rest) r acc calls =
          fanoutFold sign cms rest r acc calls := by
        simp [fanoutFold, hval]
      have hh : hitList cms (f0 :: rest) = hitList cms rest := by
        simp [hitList, List.filterMap_cons, hval]
      rw [hstep, ih r acc calls hU hS, hh]
    | some val0 =>
      have hattr : alGet r (attrFor val0) = none := by
        unfold attrFor
        by_cases h : startsHttp val0 <;> simp [h, hU, hS]
      have h1 : alSet r (attrFor val0) (Val.dict [(f0, val0)]) =
          r ++ [(attrFor val0, Val.dict [(f0, val0)])] :=
        alSet_eq_append _ _ _ hattr
      have h2 : alDel (r ++ [(attrFor val0, Val.dict [(f0, val0)])])
          (attrFor val0) = r :=
        alDel_append _ _ _ hattr
      have hstep : fanoutFold sign cms (f0 :: rest) r acc calls =
          fanoutFold sign cms rest r
            (alSet acc f0 (sign (r ++ [(attrFor val0, Val.dict [(f0, val0)])])))
            (calls ++ [r ++ [(attrFor val0, Val.dict [(f0, val0)])]]) := by
        simp only [fanoutFold, hval]
        rw [h1, h2]
      have hh : hitList cms (f0 :: rest) = (f0, val0) :: hitList cms rest := by
        simp [hitList, List.filterMap_cons, hval]
      rw [hstep, ih r _ _ hU hS, hh]
      simp

theorem alGet_isSome_foldl {α : Type} (g : String × String → α)
    (l : List (String × String)) :
    ∀ (acc : AList α) (q : String),
      (alGet (l.foldl (fun a p => alSet a p.1 (g p)) acc) q).isSome = true ↔
        (q ∈ l.map Prod.fst ∨ (alGet acc q).isSome = true) := by
  induction l with
  | nil => intro acc q; simp
  | cons p t ih =>
    intro acc q
    simp only [List.foldl_cons, List.map_cons, List.mem_cons]
    rw [ih, alGet_isSome_alSet]
    tauto

theorem mem_hitList_keys (cms : AList String) (fosL : List String) (f : String) :
    f ∈ (hitList cms fosL).map Prod.fst ↔
      (f ∈ fosL ∧ (alGet cms f).isSome = true) := by
  induction fosL with
  | nil => simp [hitList]
  | cons f0 t ih =>
    cases hval : alGet cms f0 with
    | none =>
      have hh : hitList cms (f0 :: t) = hitList cms t := by
        simp [hitList, List.filterMap_cons, hval]
      rw [hh, ih]
      simp only [List.mem_cons]
      constructor
      · rintro ⟨hft, hs⟩
        exact ⟨Or.inr hft, hs⟩
      · rintro ⟨hf | hft, hs⟩
        · rw [hf, hval] at hs
          simp at hs
        · exact ⟨hft, hs⟩
    | some val0 =>
      have hh : hitList cms (f0 :: t) = (f0, val0) :: hitList cms t := by
        simp [hitList, List.filterMap_cons, hval]
      rw [hh]
      simp only [List.map_cons, List.mem_cons]
      rw [ih]
      constructor
      · rintro (hf | ⟨hft, hs⟩)
        · refine ⟨Or.inl hf, ?_⟩
          rw [hf, hval]
          rfl
        · exact ⟨Or.inr hft, hs⟩
      · rintro ⟨hf | hft, hs⟩
        · exact Or.inl hf
        · exact Or.inr ⟨hft, hs⟩

/-- Claim C6 counterexample: the caller document already carries a
metadata_statements claim; after a fan-out call over FO B that claim is
gone -- the document is not restored to its pre-merge state, the caller
claim was overwritten during the iteration and deleted afterwards.  This
refutes the preservation part of the claim. -/
theorem claim_C6_counterexample :
    (exSigner.create_signed_metadata_statement
        [("metadata_statements", Val.dict [("X", "tokX")])] "" (some ["B"])
        false).finalReq = [] ∧
    ([("metadata_statements", Val.dict [("X", "tokX")])] : Doc) ≠ [] := by
  decide

/-- Claim C6 (amended): for every non-root Signer and document carrying
neither reserved claim, fan-out mode returns a dict whose keys are exactly
the FOs of the list that have a store entry, each FO signing call sees the
caller document extended with only that FO single-key entry (no
cross-contamination between sibling iterations), and the document is
restored to its exact pre-merge state.  When the document already carries
metadata_statements or metadata_statement_uris, those claims are instead
overwritten during an iteration and deleted by its end (see the
counterexample). -/
theorem claim_C6_amended (s : Signer) (req : Doc) (context : String)
    (fos : Option (List String)) (cms : AList String)
    (hc : alGet s.metadata_statements (resolveContext s context) = some cms)
    (hcms : cms ≠ [])
    (hU : alGet req "metadata_statement_uris" = none)
    (hS : alGet req "metadata_statements" = none)
    (hhit : hitList cms (fos.getD (cms.map Prod.fst)) ≠ []) :
    (s.create_signed_metadata_statement req context fos false).finalReq = req ∧
    (s.create_signed_metadata_statement req context fos false).calls =
      (hitList cms (fos.getD (cms.map Prod.fst))).map
        (fun p => req ++ [(attrFor p.2, Val.dict [(p.1, p.2)])]) ∧
    ∃ m, (s.create_signed_metadata_statement req context fos false).result =
        .ok (.dictRes m) ∧
      ∀ f, (alGet m f).isSome = true ↔
        (f ∈ fos.getD (cms.map Prod.fst) ∧ (alGet cms f).isSome = true) := by
  have hne : s.metadata_statements ≠ [] := by
    intro h0; rw [h0] at hc; simp [alGet] at hc
  have hfan := fanoutFold_spec s.signing_service.sign cms
    (fos.getD (cms.map Prod.fst)) req [] [] hU hS
  have hAne : (hitList cms (fos.getD (cms.map Prod.fst))).foldl
      (fun a p => alSet a p.1 (s.signing_service.sign
        (req ++ [(attrFor p.2, Val.dict [(p.1, p.2)])]))) [] ≠ [] := by
    obtain ⟨p, hp⟩ := List.exists_mem_of_ne_nil _ hhit
    have hk : p.1 ∈ (hitList cms (fos.getD (cms.map Prod.fst))).map Prod.fst :=
      List.mem_map_of_mem Prod.fst hp
    have hks := (alGet_isSome_foldl
      (fun p => s.signing_service.sign (req ++ [(attrFor p.2, Val.dict [(p.1, p.2)])]))
      (hitList cms (fos.getD (cms.map Prod.fst))) [] p.1).mpr (Or.inl hk)
    intro hA
    rw [hA] at hks
    simp [alGet] at hks
  refine ⟨?_, ?_, ?_⟩
  · simp [Signer.create_signed_metadata_statement, hne, hc, hcms, hfan, hAne]
  · simp [Signer.create_signed_metadata_statement, hne, hc, hcms, hfan, hAne]
  · refine ⟨(hitList cms (fos.getD (cms.map Prod.fst))).foldl
      (fun a p => alSet a p.1 (s.signing_service.sign
        (req ++ [(attrFor p.2, Val.dict [(p.1, p.2)])]))) [], ?_, ?_⟩
    · simp [Signer.create_signed_metadata_statement, hne, hc, hcms, hfan, hAne]
    · intro f
      rw [alGet_isSome_foldl
        (fun p => s.signing_service.sign (req ++ [(attrFor p.2, Val.dict [(p.1, p.2)])]))
        (hitList cms (fos.getD (cms.map Prod.fst))) [] f]
      simp only [alGet, Option.isSome_none, Bool.false_eq_true, or_false]
      exact mem_hitList_keys cms (fos.getD (cms.map Prod.fst)) f

/-- Claim C6 witness: over FOs A (URI) and B (inline), fan-out on a
document with one unrelated claim restores the document, issues one call
per FO on the document extended with only that FO entry, and returns a
dict with keys exactly A and B. -/
theorem claim_C6_witness :
    (exSigner.create_signed_metadata_statement [("foo", .str "x")] "" none
        false).finalReq = [("foo", .str "x")] ∧
    (exSigner.create_signed_metadata_statement [("foo", .str "x")] "" none
        false).calls =
      (hitList [("A", "http://x/stmtA"), ("B", "eyJhbGciOi.sig")]
          ((none : Option (List String)).getD
            (([("A", "http://x/stmtA"), ("B", "eyJhbGciOi.sig")] :
              AList String).map Prod.fst))).map
        (fun p => [("foo", .str "x")] ++ [(attrFor p.2, Val.dict [(p.1, p.2)])]) ∧
    ∃ m, (exSigner.create_signed_metadata_statement [("foo", .str "x")] "" none
        false).result = .ok (.dictRes m) ∧
      ∀ f, (alGet m f).isSome = true ↔
        (f ∈ (none : Option (List String)).getD
            (([("A", "http://x/stmtA"), ("B", "eyJhbGciOi.sig")] :
              AList String).map Prod.fst) ∧
          (alGet [("A", "http://x/stmtA"), ("B", "eyJhbGciOi.sig")] f).isSome = true) :=
  claim_C6_amended exSigner [("foo", .str "x")] "" none
    [("A", "http://x/stmtA"), ("B", "eyJhbGciOi.sig")]
    (by decide) (by decide) (by decide) (by decide) (by decide)

/-! ## Claim C9 -/

theorem gather_backendCalls_zero (s : Signer) (context : String)
    (fos : Option (List String)) :
    (s.gather_metadata_statements context fos).backendCalls = 0 := by
  unfold Signer.gather_metadata_statements
  dsimp only
  split
  · rfl
  · split
    · split
      · rfl
      · rfl
    · split
      · rfl
      · split
        · rfl
        · rfl

/-- Claim C9: gather_metadata_statements never invokes the SigningBackend
(the backend call count of the model is zero on every input), returns the
empty document in the root and empty-store cases, fails with the ValueError
naming the context when a non-root Signer is asked for an unknown context,
and otherwise returns the merged URI-versus-inline classification of the
requested FOs -- all without any signing call. -/
theorem claim_C9 (s : Signer) (context : String) (fos : Option (List String)) :
    (s.gather_metadata_statements context fos).backendCalls = 0 ∧
    ((s.metadata_statements = [] ∨
      (isMinSet s.metadata_statements ∧
        alGet s.metadata_statements (resolveContext s context) = none) ∨
      alGet s.metadata_statements (resolveContext s context) = some []) →
      (s.gather_metadata_statements context fos).result = .ok []) ∧
    ((s.metadata_statements ≠ [] ∧ ¬ isMinSet s.metadata_statements ∧
      alGet s.metadata_statements (resolveContext s context) = none) →
      (s.gather_metadata_statements context fos).result =
        .error (.valueError ("Wrong context \"" ++ resolveContext s context ++ "\""))) ∧
    (∀ cms, alGet s.metadata_statements (resolveContext s context) = some cms →
      cms ≠ [] →
      ∃ d, (s.gather_metadata_statements context fos).result = .ok d ∧
        ∀ f val, f ∈ fos.getD (cms.map Prod.fst) → alGet cms f = some val →
          hasEntry d f val) := by
  refine ⟨gather_backendCalls_zero s context fos, ?_, ?_, ?_⟩
  · intro hroot
    rcases hroot with h0 | ⟨hm, hg⟩ | hg
    · simp [Signer.gather_metadata_statements, h0]
    · have hne : s.metadata_statements ≠ [] := by
        intro hc; rw [hc] at hm; simp [isMinSet] at hm
      simp [Signer.gather_metadata_statements, hne, hg, hm]
    · have hne : s.metadata_statements ≠ [] := by
        intro hc; rw [hc] at hg; simp [alGet] at hg
      simp [Signer.gather_metadata_statements, hne, hg]
  · rintro ⟨h1, h2, h3⟩
    simp [Signer.gather_metadata_statements, h1, h2, h3]
  · intro cms hg hcms
    have hne : s.metadata_statements ≠ [] := by
      intro hc; rw [hc] at hg; simp [alGet] at hg
    obtain ⟨hmf, _, _, hent⟩ :=
      mergeFold_spec cms (fos.getD (cms.map Prod.fst)) []
        (fun v hv => by simp [alGet] at hv)
        (fun v hv => by simp [alGet] at hv)
    rcases hE : mergeFold cms (fos.getD (cms.map Prod.fst)) [] with ⟨d, e⟩
    rw [hE] at hmf hent
    simp only at hmf
    subst hmf
    refine ⟨d, ?_, ?_⟩
    · simp [Signer.gather_metadata_statements, hne, hg, hcms, hE]
    · intro f val hf hgf
      simpa using hent f val hgf (Or.inl hf)

/-- Claim C9 witness: concrete gather calls -- the non-root Signer gathers
without any backend call, the root Signer gathers the empty document, and
an unknown context on the non-root Signer yields the ValueError. -/
theorem claim_C9_witness :
    (exSigner.gather_metadata_statements "" none).backendCalls = 0 ∧
    (exRootSigner.gather_metadata_statements "" none).result = .ok [] ∧
    (exSigner.gather_metadata_statements "nope" none).result =
      .error (.valueError "Wrong context \"nope\"") := by
  refine ⟨(claim_C9 exSigner "" none).1, ?_, ?_⟩
  · exact (claim_C9 exRootSigner "" none).2.1 (Or.inr (Or.inr (by decide)))
  · exact (claim_C9 exSigner "nope" none).2.2.1 ⟨by decide, by decide, by decide⟩

end FedOidc
